import Mathlib

/-!
Verification of the name-collision resolver and receive protocol of the
`files` server (`cmd/server/server.go`).

Filenames are modelled as `List Char`.  The Go `map[string]int` held by
`FileIndex` is modelled as a function `List Char → Option Int` (`none` means
the key is absent); Go's 64-bit `int` is modelled as `Int` with the
two's-complement wrap-around (`wrap64`) applied exactly where the source
performs arithmetic that can overflow (the `copyNum + 1` increment in
`Resolve`), and `strconv.Atoi`'s 64-bit range check on parsed input is kept.
The mutex around `Resolve` serializes calls, so `Resolve` is modelled as a
pure state-passing function.
-/

namespace FilesServer

abbrev Filename := List Char

/-- Go: `const copySuffix = "_copy"` (server.go line 16). -/
def copySuffix : Filename := ['_', 'c', 'o', 'p', 'y']

/-- Helper for `filepathExt`: scans the reversed filename from the original
end; stops with no extension at a path separator (`os.IsPathSeparator` on
Linux: only `'/'`), returns the suffix from the final dot when a dot is
found.  `acc` holds the already-scanned characters in original order. -/
def extAux : List Char → List Char → List Char
  | _, [] => []
  | acc, c :: rest =>
    if c = '/' then []
    else if c = '.' then c :: acc
    else extAux (c :: acc) rest

/-- Go `filepath.Ext(path)`: the suffix beginning at the final dot in the
final path element; empty if there is no dot (server.go line 19 / 93). -/
def filepathExt (path : Filename) : Filename := extAux [] path.reverse

/-- Go `strings.TrimSuffix(s, suf)`: drops `suf` when `s` ends with it,
otherwise returns `s` unchanged. -/
def trimSuffix (s suf : Filename) : Filename :=
  if suf.isSuffixOf s then s.take (s.length - suf.length) else s

/-- Go `getBareFilename` (server.go lines 18-20):
`strings.TrimSuffix(filename, filepath.Ext(filename))`. -/
def getBareFilename (filename : Filename) : Filename :=
  trimSuffix filename (filepathExt filename)

/-- Digit accumulator for `atoi`: consumes decimal digits, failing on any
non-digit character. -/
def digitsVal : List Char → Nat → Option Nat
  | [], acc => some acc
  | c :: rest, acc =>
    if c.isDigit then digitsVal rest (10 * acc + (c.toNat - 48)) else none

/-- Nonempty all-digit parse (the body of Go's decimal parsing). -/
def parseDigits : List Char → Option Nat
  | [] => none
  | s => digitsVal s 0

/-- Go `strconv.Atoi(s)` (server.go line 51): optional single `+`/`-` sign,
then a nonempty run of decimal digits, with the 64-bit `int` range check
(out-of-range input is an error, hence `none`). -/
def atoi (s : List Char) : Option Int :=
  let signed : Bool × List Char :=
    match s with
    | '+' :: rest => (false, rest)
    | '-' :: rest => (true, rest)
    | _ => (false, s)
  match parseDigits signed.2 with
  | none => none
  | some n =>
    let v : Int := if signed.1 then -(n : Int) else (n : Int)
    if v < -(2 ^ 63) ∨ (2 ^ 63 - 1 : Int) < v then none else some v

/-- The characters after the LAST occurrence of `pat` in the scanned list,
`none` when `pat` does not occur.  This models, for the nonempty pattern
`copySuffix`, Go's `strings.LastIndex(s, pat)` followed by slicing
`s[idx+len(pat):]` (server.go lines 45-51). -/
def afterLast (pat : Filename) : Filename → Option Filename
  | [] => none
  | c :: rest =>
    match afterLast pat rest with
    | some r => some r
    | none =>
      if pat.isPrefixOf (c :: rest) then some ((c :: rest).drop pat.length)
      else none

/-- One iteration of the inner loop of `NewFileIndexFromSlice`
(server.go lines 38-54): skip `copyName` unless it starts with `fileBare`;
strip that prefix, strip the remainder's extension, slice after the last
`copySuffix` occurrence and `Atoi` the slice.  `none` models `continue`. -/
def copyNumOf (fileBare copyName : Filename) : Option Int :=
  if fileBare.isPrefixOf copyName then
    let rest := copyName.drop fileBare.length
    let copyBare := getBareFilename rest
    match afterLast copySuffix copyBare with
    | none => none
    | some tail => atoi tail
  else none

/-- The Go `map[string]int` of `FileIndex` (server.go line 23). -/
abbrev Index := Filename → Option Int

def emptyIndex : Index := fun _ => none

/-- Go map assignment `m[k] = v`. -/
def updateIndex (m : Index) (k : Filename) (v : Int) : Index :=
  fun s => if s = k then some v else m s

/-- The inner loop of `NewFileIndexFromSlice` (server.go lines 35-59):
`latestCopy` starts at 0 and is raised to every strictly larger parsed copy
number among the candidate names. -/
def latestCopyOf (filenames : List Filename) (filename : Filename) : Int :=
  let fileBare := getBareFilename filename
  filenames.foldl (fun latestCopy copyName =>
    match copyNumOf fileBare copyName with
    | none => latestCopy
    | some copyNum => if latestCopy < copyNum then copyNum else latestCopy) 0

/-- Go `NewFileIndexFromSlice` (server.go lines 30-65).  The Go function also
returns an error value that is always `nil`, so it is dropped here. -/
def NewFileIndexFromSlice (filenames : List Filename) : Index :=
  filenames.foldl
    (fun fi filename => updateIndex fi filename (latestCopyOf filenames filename))
    emptyIndex

/-- Decimal digit character, `48 + n` is the code of `'0'..'9'` for `n < 10`. -/
def digitChar (n : Nat) : Char := Char.ofNat (48 + n)

/-- Decimal digits of `n`, most significant first, with explicit fuel
(`fuel > n` suffices). -/
def toDecimalAux : Nat → Nat → List Char
  | 0, _ => []
  | fuel + 1, n =>
    if n < 10 then [digitChar n]
    else toDecimalAux fuel (n / 10) ++ [digitChar (n % 10)]

/-- Decimal representation of a natural number. -/
def natToDecimal (n : Nat) : List Char := toDecimalAux (n + 1) n

/-- Go `fmt.Sprintf("%d", i)` for an `int` (server.go line 94). -/
def intToDecimal (i : Int) : List Char :=
  if i < 0 then '-' :: natToDecimal i.natAbs else natToDecimal i.toNat

/-- Two's-complement wrap-around of Go's 64-bit signed `int`: the value of
`copyNum + 1` computed by the source when `copyNum` is the stored counter
(both in the `Sprintf` format argument and in `fi.index[filename]++`, which
produce the same wrapped value). -/
def wrap64 (n : Int) : Int := (n + 2 ^ 63) % 2 ^ 64 - 2 ^ 63

/-- Go `(*FileIndex).Resolve` (server.go lines 83-100), returning the unique
name together with the updated index.  The mutex makes the whole
read-modify-write atomic, so the sequential function is the faithful model.
The increment `copyNum + 1` is a 64-bit `int` addition, hence `wrap64`.
Note the Go order of map writes: `fi.index[filename]++` happens before
`fi.index[uniqueName] = 0`, hence the `uniqueName` update is outermost. -/
def Resolve (fi : Index) (filename : Filename) : Filename × Index :=
  match fi filename with
  | none => (filename, updateIndex fi filename 0)
  | some copyNum =>
    let bare := getBareFilename filename
    let ext := filepathExt filename
    let next := wrap64 (copyNum + 1)
    let uniqueName := bare ++ copySuffix ++ intToDecimal next ++ ext
    (uniqueName, updateIndex (updateIndex fi filename next) uniqueName 0)

/-- Outcome of one `zr.Read(buf)` call in the receive loop (server.go lines
136-145): a chunk of `n > 0` decompressed bytes, a clean end of stream
(`n == 0` with `io.EOF`), or any other error with `n == 0`. -/
inductive ReadResult
  | chunk (data : List Char)
  | eofSig
  | errSig
deriving DecidableEq

/-- Abstract view of one client connection, fixing the outcome of each I/O
interaction `receiveFile` performs: the filename token read by `Fscanf`
(`none` models a read/parse failure), whether writing the resolved name back
succeeds, whether `os.Create` succeeds, whether `file.Write` calls succeed,
and the sequence of decompressed-read outcomes. -/
structure Conn where
  headerToken : Option Filename
  sendOk : Bool
  createOk : Bool
  writeOk : Bool
  reads : List ReadResult

/-- Observable effects of one `receiveFile` run: the resolver state at exit,
how many times `Resolve` was called, the name successfully written back to
the client (if any), the file created on disk (if any) and the bytes stored
in it, and whether the run reached the final success log. -/
structure RecvResult where
  index : Index
  resolveCalls : Nat
  response : Option Filename
  created : Option Filename
  fileData : List Char
  success : Bool

/-- The receive loop of `receiveFile` (server.go lines 133-154): reads are
consumed in order; a chunk is appended to the file (a failing disk write
aborts with the bytes of that chunk not stored), `io.EOF` with `n == 0`
breaks out successfully, any other error aborts.  An exhausted read list
means the connection never signalled end-of-stream; in Go the read would
block, modelled as an unsuccessful stop. -/
def streamLoop (writeOk : Bool) : List ReadResult → List Char → List Char × Bool
  | [], acc => (acc, false)
  | ReadResult.chunk d :: rest, acc =>
    if writeOk then streamLoop writeOk rest (acc ++ d) else (acc, false)
  | ReadResult.eofSig :: _, acc => (acc, true)
  | ReadResult.errSig :: _, acc => (acc, false)

/-- Go `receiveFile` (server.go lines 108-162).  Control flow from the
source: a header-read failure returns before `Resolve` is called and before
anything is sent or created; a failure to send the resolved name back is
only logged and the transfer proceeds; an `os.Create` failure returns after
the resolve and send; otherwise the stream is received into the file. -/
def receiveFile (con : Conn) (fi : Index) : RecvResult :=
  match con.headerToken with
  | none =>
    { index := fi, resolveCalls := 0, response := none, created := none
      fileData := [], success := false }
  | some filename =>
    let r := Resolve fi filename
    let response : Option Filename := if con.sendOk then some r.1 else none
    if con.createOk then
      let s := streamLoop con.writeOk con.reads []
      { index := r.2, resolveCalls := 1, response := response
        created := some r.1, fileData := s.1, success := s.2 }
    else
      { index := r.2, resolveCalls := 1, response := response
        created := none, fileData := [], success := false }

/-! ### Helper lemmas about the index map -/

theorem updateIndex_self (m : Index) (k : Filename) (v : Int) :
    updateIndex m k v k = some v := by
  simp [updateIndex]

theorem updateIndex_ne (m : Index) (k : Filename) (v : Int) {s : Filename}
    (h : s ≠ k) : updateIndex m k v s = m s := by
  simp [updateIndex, h]

/-! ### The extension is a suffix and the bare name is the rest -/

theorem extAux_eq_nil_or_suffix : ∀ (rest acc : List Char),
    extAux acc rest = [] ∨ ∃ p, p ++ extAux acc rest = rest.reverse ++ acc := by
  intro rest
  induction rest with
  | nil => intro acc; exact Or.inl rfl
  | cons c rest ih =>
    intro acc
    by_cases hc : c = '/'
    · exact Or.inl (by simp [extAux, hc])
    · by_cases hd : c = '.'
      · refine Or.inr ⟨rest.reverse, ?_⟩
        simp [extAux, hc, hd]
      · have hstep : extAux acc (c :: rest) = extAux (c :: acc) rest := by
          simp [extAux, hc, hd]
        rcases ih (c :: acc) with h | ⟨p, hp⟩
        · exact Or.inl (hstep.trans h)
        · refine Or.inr ⟨p, ?_⟩
          rw [hstep, hp]
          simp

theorem trimSuffix_append (p e : Filename) : trimSuffix (p ++ e) e = p := by
  have hsuf : e.isSuffixOf (p ++ e) = true := by
    simp [List.isSuffixOf_iff_suffix]
  have hlen : (p ++ e).length - e.length = p.length := by simp
  simp only [trimSuffix, hsuf, if_true, hlen]
  exact List.take_left p e

theorem bare_append_ext (f : Filename) :
    getBareFilename f ++ filepathExt f = f := by
  rcases extAux_eq_nil_or_suffix f.reverse [] with h | ⟨p, hp⟩
  · have he : filepathExt f = [] := h
    have hb : getBareFilename f = f := by
      have := trimSuffix_append f []
      rw [getBareFilename, he]
      simpa using this
    rw [hb, he]
    simp
  · have hp' : p ++ filepathExt f = f := by
      simpa [filepathExt] using hp
    have hb : getBareFilename f = p := by
      rw [getBareFilename]
      nth_rewrite 1 [← hp']
      exact trimSuffix_append p (filepathExt f)
    rw [hb, hp']

/-! ### Decimal representation: value recovery and injectivity -/

/-- The number a digit string denotes; inverse of `toDecimalAux` on its
range, used only to prove injectivity of the representation. -/
def decimalValue (l : List Char) : Nat :=
  l.foldl (fun acc c => 10 * acc + (c.toNat - 48)) 0

theorem decimalValue_append_digit (l : List Char) (c : Char) :
    decimalValue (l ++ [c]) = 10 * decimalValue l + (c.toNat - 48) := by
  simp [decimalValue, List.foldl_append]

theorem digitChar_toNat (n : Nat) (h : n < 10) : (digitChar n).toNat - 48 = n := by
  interval_cases n <;> decide

theorem decimalValue_toDecimalAux : ∀ (fuel n : Nat), n < fuel →
    decimalValue (toDecimalAux fuel n) = n := by
  intro fuel
  induction fuel with
  | zero => intro n h; omega
  | succ fuel ih =>
    intro n h
    by_cases h10 : n < 10
    · have h1 : decimalValue [digitChar n] = (digitChar n).toNat - 48 := by
        simp [decimalValue]
      simp only [toDecimalAux, if_pos h10]
      rw [h1, digitChar_toNat n h10]
    · have hpos : 0 < n := by omega
      have hdiv : n / 10 < fuel := by
        have h1 : n / 10 < n := Nat.div_lt_self hpos (by omega)
        omega
      simp only [toDecimalAux, if_neg h10]
      rw [decimalValue_append_digit, ih (n / 10) hdiv,
        digitChar_toNat (n % 10) (Nat.mod_lt n (by omega))]
      omega

theorem natToDecimal_decimalValue (n : Nat) : decimalValue (natToDecimal n) = n :=
  decimalValue_toDecimalAux (n + 1) n (Nat.lt_succ_self n)

theorem natToDecimal_injective : Function.Injective natToDecimal := by
  intro a b h
  have h2 := congrArg decimalValue h
  rwa [natToDecimal_decimalValue, natToDecimal_decimalValue] at h2

theorem toDecimalAux_ne_nil (fuel n : Nat) (h : 0 < fuel) :
    toDecimalAux fuel n ≠ [] := by
  cases fuel with
  | zero => omega
  | succ fuel => by_cases h10 : n < 10 <;> simp [toDecimalAux, h10]

theorem natToDecimal_ne_nil (n : Nat) : natToDecimal n ≠ [] :=
  toDecimalAux_ne_nil (n + 1) n (Nat.succ_pos n)

theorem mem_toDecimalAux_digit : ∀ (fuel n : Nat) (c : Char),
    c ∈ toDecimalAux fuel n → ∃ d, d < 10 ∧ c = digitChar d := by
  intro fuel
  induction fuel with
  | zero => intro n c h; simp [toDecimalAux] at h
  | succ fuel ih =>
    intro n c h
    by_cases h10 : n < 10
    · simp only [toDecimalAux, if_pos h10, List.mem_singleton] at h
      exact ⟨n, h10, h⟩
    · simp only [toDecimalAux, if_neg h10, List.mem_append,
        List.mem_singleton] at h
      rcases h with h | h
      · exact ih _ _ h
      · exact ⟨n % 10, Nat.mod_lt n (by omega), h⟩

theorem natToDecimal_head_digit (n : Nat) (c : Char) (l : List Char)
    (h : natToDecimal n = c :: l) : ∃ d, d < 10 ∧ c = digitChar d := by
  have hm : c ∈ natToDecimal n := by
    rw [h]; exact List.mem_cons_self c l
  exact mem_toDecimalAux_digit (n + 1) n c hm

theorem intToDecimal_injective : Function.Injective intToDecimal := by
  intro a b h
  by_cases ha : a < 0 <;> by_cases hb : b < 0
  · simp only [intToDecimal, if_pos ha, if_pos hb] at h
    injection h with h1 h2
    have h3 := natToDecimal_injective h2
    omega
  · exfalso
    simp only [intToDecimal, if_pos ha, if_neg hb] at h
    rcases natToDecimal_head_digit b.toNat '-' _ h.symm with ⟨d, hd, hc⟩
    interval_cases d <;> exact absurd hc (by decide)
  · exfalso
    simp only [intToDecimal, if_neg ha, if_pos hb] at h
    rcases natToDecimal_head_digit a.toNat '-' _ h with ⟨d, hd, hc⟩
    interval_cases d <;> exact absurd hc (by decide)
  · simp only [intToDecimal, if_neg ha, if_neg hb] at h
    have h3 := natToDecimal_injective h
    omega

theorem intToDecimal_ne_nil (i : Int) : intToDecimal i ≠ [] := by
  rw [intToDecimal]
  split
  · simp
  · exact natToDecimal_ne_nil _

/-- A synthesized copy name is longer than the original, hence distinct. -/
theorem uniqueName_ne_filename (f rep : Filename) (hrep : rep ≠ []) :
    getBareFilename f ++ copySuffix ++ rep ++ filepathExt f ≠ f := by
  intro h
  have hlen := congrArg List.length h
  have hbe := congrArg List.length (bare_append_ext f)
  have hr : 0 < rep.length := List.length_pos.2 hrep
  simp only [List.length_append, copySuffix, List.length_cons,
    List.length_nil] at hlen hbe
  omega

/-- Inside the 64-bit range, the wrap is the identity. -/
theorem wrap64_small (n : Int) (h1 : -(2 ^ 63) ≤ n) (h2 : n < 2 ^ 63) :
    wrap64 n = n := by
  unfold wrap64
  omega

theorem wrap64_bounds (n : Int) : -(2 ^ 63) ≤ wrap64 n ∧ wrap64 n < 2 ^ 63 := by
  unfold wrap64
  constructor <;> omega

/-- A wrapped increment never returns its argument. -/
theorem wrap64_add_one_ne (v : Int) : wrap64 (v + 1) ≠ v := by
  unfold wrap64
  omega

/-- Unfolding equation of `Resolve` for an absent name. -/
theorem Resolve_none (fi : Index) (f : Filename) (h : fi f = none) :
    Resolve fi f = (f, updateIndex fi f 0) := by
  unfold Resolve
  rw [h]

/-- Unfolding equation of `Resolve` for a present name with counter `k`. -/
theorem Resolve_some (fi : Index) (f : Filename) (k : Int) (h : fi f = some k) :
    Resolve fi f =
      (getBareFilename f ++ copySuffix ++ intToDecimal (wrap64 (k + 1))
         ++ filepathExt f,
       updateIndex (updateIndex fi f (wrap64 (k + 1)))
         (getBareFilename f ++ copySuffix ++ intToDecimal (wrap64 (k + 1))
           ++ filepathExt f) 0) := by
  unfold Resolve
  rw [h]

/-! ### Concrete filenames used in evaluations -/

def nmA : Filename := ['a', '.', 't', 'x', 't']

def nmACopy1 : Filename := ['a', '_', 'c', 'o', 'p', 'y', '1', '.', 't', 'x', 't']

def nmACopy1Copy1 : Filename :=
  ['a', '_', 'c', 'o', 'p', 'y', '1', '_', 'c', 'o', 'p', 'y', '1', '.', 't', 'x', 't']

def nmACopy3 : Filename := ['a', '_', 'c', 'o', 'p', 'y', '3', '.', 't', 'x', 't']

def nmACopyNeg3 : Filename :=
  ['a', '_', 'c', 'o', 'p', 'y', '-', '3', '.', 't', 'x', 't']

def nmB : Filename := ['b', '.', 't', 'x', 't']

def nmBashrcTail : Filename := ['b', 'a', 's', 'h', 'r', 'c']

/-- `a_copy9223372036854775807.txt`: carries the copy number `2^63 - 1`,
the largest value `strconv.Atoi` accepts. -/
def nmACopyMax : Filename :=
  ['a', '_', 'c', 'o', 'p', 'y',
   '9', '2', '2', '3', '3', '7', '2', '0', '3', '6', '8', '5', '4',
   '7', '7', '5', '8', '0', '7', '.', 't', 'x', 't']

/-- `a_copy-9223372036854775808.txt`: the name `Resolve` synthesizes after
the counter `2^63 - 1` wraps to `-2^63`. -/
def nmACopyWrapped : Filename :=
  ['a', '_', 'c', 'o', 'p', 'y', '-',
   '9', '2', '2', '3', '3', '7', '2', '0', '3', '6', '8', '5', '4',
   '7', '7', '5', '8', '0', '8', '.', 't', 'x', 't']

/-! ### Claim theorems -/

/-- Claim C1 (refuting evaluation): from the index seeded with `a.txt` alone,
`Resolve("a_copy1.txt")` returns `a_copy1.txt` (absent, returned unchanged),
and the subsequent `Resolve("a.txt")` synthesizes and returns `a_copy1.txt`
AGAIN — `Resolve` never checks whether the synthesized candidate is already
taken, so two `Resolve` calls on the same resolver return the same name,
contradicting the claimed pairwise distinctness of returned names. -/
theorem C1_duplicate_resolved_name :
    (Resolve (NewFileIndexFromSlice [nmA]) nmACopy1).1 = nmACopy1 ∧
    (Resolve (Resolve (NewFileIndexFromSlice [nmA]) nmACopy1).2 nmA).1 = nmACopy1 := by
  decide

/-- Claim C2 (refuting evaluation): seeding from `a_copy1.txt` and
`a_copy1_copy1.txt` stores counter 1 under `a_copy1.txt`; after
`Resolve("a.txt")` (which inserts `a.txt` with 0) a second `Resolve("a.txt")`
synthesizes the candidate `a_copy1.txt` and executes
`fi.index[uniqueName] = 0`, resetting the stored counter of `a_copy1.txt`
from 1 down to 0 — a key's counter DOES decrease across a `Resolve` call,
contradicting the claim. -/
theorem C2_counter_reset_to_zero :
    ((Resolve (NewFileIndexFromSlice [nmACopy1, nmACopy1Copy1]) nmA).2 nmACopy1
      = some 1) ∧
    ((Resolve (Resolve (NewFileIndexFromSlice [nmACopy1, nmACopy1Copy1]) nmA).2
        nmA).2 nmACopy1 = some 0) := by
  decide

/-- Claim C3 (refuting evaluation): the claim's "the counter stored under
requested becomes k+1, the returned name carries k+1" fails at the reachable
counter `2^63 - 1`, seeded from `{a.txt, a_copy9223372036854775807.txt}`
(the copy number is exactly the largest value `Atoi` accepts).  There
`Resolve("a.txt")` computes the 64-bit increment `copyNum + 1`, which wraps
to `-2^63`: the stored counter becomes `-2^63`, not `2^63`, and the returned
name is `a_copy-9223372036854775808.txt`, not the name carrying `2^63`. -/
theorem C3_counterexample :
    NewFileIndexFromSlice [nmA, nmACopyMax] nmA = some (2 ^ 63 - 1) ∧
    (Resolve (NewFileIndexFromSlice [nmA, nmACopyMax]) nmA).2 nmA
      ≠ some (2 ^ 63 - 1 + 1) ∧
    (Resolve (NewFileIndexFromSlice [nmA, nmACopyMax]) nmA).1
      ≠ getBareFilename nmA ++ copySuffix ++ intToDecimal (2 ^ 63 - 1 + 1)
          ++ filepathExt nmA ∧
    (Resolve (NewFileIndexFromSlice [nmA, nmACopyMax]) nmA).2 nmA
      = some (-(2 ^ 63)) ∧
    (Resolve (NewFileIndexFromSlice [nmA, nmACopyMax]) nmA).1 = nmACopyWrapped := by
  decide

/-- Claim C3 (amended): `Resolve(requested)` returns an absent name
unchanged after recording it with counter 0; for a present name with counter
`k` it returns `base ++ "_copy" ++ w ++ ext` and stores `w` under the
requested name, where `w` is the 64-bit wrap of `k + 1` (equal to `k + 1`
whenever `k + 1` fits in a 64-bit `int`, i.e. in all but the overflow
corner), and records the returned candidate with counter 0. -/
theorem C3_resolve_behavior (fi : Index) (f : Filename) :
    (fi f = none → Resolve fi f = (f, updateIndex fi f 0)) ∧
    (∀ k : Int, fi f = some k →
      (Resolve fi f).1 =
        getBareFilename f ++ copySuffix ++ intToDecimal (wrap64 (k + 1))
          ++ filepathExt f ∧
      (Resolve fi f).2 f = some (wrap64 (k + 1)) ∧
      (Resolve fi f).2 ((Resolve fi f).1) = some 0) ∧
    (∀ k : Int, fi f = some k → -(2 ^ 63) ≤ k + 1 → k + 1 < 2 ^ 63 →
      (Resolve fi f).2 f = some (k + 1)) := by
  have hmain : ∀ k : Int, fi f = some k →
      (Resolve fi f).1 =
        getBareFilename f ++ copySuffix ++ intToDecimal (wrap64 (k + 1))
          ++ filepathExt f ∧
      (Resolve fi f).2 f = some (wrap64 (k + 1)) ∧
      (Resolve fi f).2 ((Resolve fi f).1) = some 0 := by
    intro k h
    have hne : f ≠ getBareFilename f ++ copySuffix
        ++ intToDecimal (wrap64 (k + 1)) ++ filepathExt f :=
      fun hh => uniqueName_ne_filename f _ (intToDecimal_ne_nil _) hh.symm
    refine ⟨?_, ?_, ?_⟩
    · rw [Resolve_some fi f k h]
    · rw [Resolve_some fi f k h]
      show (updateIndex (updateIndex fi f (wrap64 (k + 1)))
        (getBareFilename f ++ copySuffix ++ intToDecimal (wrap64 (k + 1))
          ++ filepathExt f) 0) f = some (wrap64 (k + 1))
      rw [updateIndex_ne _ _ _ hne, updateIndex_self]
    · rw [Resolve_some fi f k h]
      exact updateIndex_self _ _ _
  refine ⟨Resolve_none fi f, hmain, ?_⟩
  intro k h h1 h2
  rw [(hmain k h).2.1, wrap64_small (k + 1) h1 h2]

/-- Claim C3 witness: both branches exercised on concrete inputs — the empty
index with `b.txt` (absent branch) and an index holding `a.txt ↦ 0`
(present branch, where the wrapped increment equals 1). -/
theorem C3_resolve_behavior_witness :
    (Resolve emptyIndex nmB = (nmB, updateIndex emptyIndex nmB 0)) ∧
    ((Resolve (updateIndex emptyIndex nmA 0) nmA).1 =
      getBareFilename nmA ++ copySuffix ++ intToDecimal (wrap64 (0 + 1))
        ++ filepathExt nmA ∧
     (Resolve (updateIndex emptyIndex nmA 0) nmA).2 nmA = some (wrap64 (0 + 1)) ∧
     (Resolve (updateIndex emptyIndex nmA 0) nmA).2
       ((Resolve (updateIndex emptyIndex nmA 0) nmA).1) = some 0) ∧
    (Resolve (updateIndex emptyIndex nmA 0) nmA).2 nmA = some (0 + 1) :=
  ⟨(C3_resolve_behavior emptyIndex nmB).1 rfl,
   (C3_resolve_behavior (updateIndex emptyIndex nmA 0) nmA).2.1 0 (by decide),
   (C3_resolve_behavior (updateIndex emptyIndex nmA 0) nmA).2.2 0 (by decide)
     (by decide) (by decide)⟩

/-- Claim C5: seeding from `{a.txt, a_copy3.txt, b.txt}` records counter 3
for `a.txt` and counter 0 for both `b.txt` and `a_copy3.txt`. -/
theorem C5_seed_example :
    (NewFileIndexFromSlice [nmA, nmACopy3, nmB]) nmA = some 3 ∧
    (NewFileIndexFromSlice [nmA, nmACopy3, nmB]) nmB = some 0 ∧
    (NewFileIndexFromSlice [nmA, nmACopy3, nmB]) nmACopy3 = some 0 := by
  decide

/-- Claim C6: starting from any resolver with no entry for `f`, three
successive `Resolve(f)` calls return `f`, then `base ++ "_copy1" ++ ext`,
then `base ++ "_copy2" ++ ext`. -/
theorem C6_three_resolves (fi : Index) (f : Filename) (h : fi f = none) :
    (Resolve fi f).1 = f ∧
    (Resolve (Resolve fi f).2 f).1 =
      getBareFilename f ++ copySuffix ++ ['1'] ++ filepathExt f ∧
    (Resolve (Resolve (Resolve fi f).2 f).2 f).1 =
      getBareFilename f ++ copySuffix ++ ['2'] ++ filepathExt f := by
  have hd1 : intToDecimal (wrap64 (0 + 1)) = ['1'] := by decide
  have hd2 : intToDecimal (wrap64 (wrap64 (0 + 1) + 1)) = ['2'] := by decide
  have hlook1 : (updateIndex fi f 0) f = some 0 := updateIndex_self fi f 0
  have hne1 : f ≠ getBareFilename f ++ copySuffix
      ++ intToDecimal (wrap64 (0 + 1)) ++ filepathExt f :=
    fun hh => uniqueName_ne_filename f _ (intToDecimal_ne_nil _) hh.symm
  have hlook2 :
      (updateIndex (updateIndex (updateIndex fi f 0) f (wrap64 (0 + 1)))
        (getBareFilename f ++ copySuffix ++ intToDecimal (wrap64 (0 + 1))
          ++ filepathExt f) 0) f = some (wrap64 (0 + 1)) := by
    rw [updateIndex_ne _ _ _ hne1, updateIndex_self]
  refine ⟨by rw [Resolve_none fi f h], ?_, ?_⟩
  · rw [Resolve_none fi f h]
    show (Resolve (updateIndex fi f 0) f).1 = _
    rw [Resolve_some _ f 0 hlook1]
    show getBareFilename f ++ copySuffix ++ intToDecimal (wrap64 (0 + 1))
      ++ filepathExt f = _
    rw [hd1]
  · rw [Resolve_none fi f h]
    show (Resolve (Resolve (updateIndex fi f 0) f).2 f).1 = _
    rw [Resolve_some _ f 0 hlook1]
    show (Resolve (updateIndex (updateIndex (updateIndex fi f 0) f
      (wrap64 (0 + 1)))
      (getBareFilename f ++ copySuffix ++ intToDecimal (wrap64 (0 + 1))
        ++ filepathExt f) 0) f).1 = _
    rw [Resolve_some _ f (wrap64 (0 + 1)) hlook2]
    show getBareFilename f ++ copySuffix
      ++ intToDecimal (wrap64 (wrap64 (0 + 1) + 1)) ++ filepathExt f = _
    rw [hd2]

/-- Claim C6 witness: the three calls on the empty index requesting
`a.txt`. -/
theorem C6_three_resolves_witness :
    emptyIndex nmA = none ∧
    ((Resolve emptyIndex nmA).1 = nmA ∧
     (Resolve (Resolve emptyIndex nmA).2 nmA).1 =
       getBareFilename nmA ++ copySuffix ++ ['1'] ++ filepathExt nmA ∧
     (Resolve (Resolve (Resolve emptyIndex nmA).2 nmA).2 nmA).1 =
       getBareFilename nmA ++ copySuffix ++ ['2'] ++ filepathExt nmA) :=
  ⟨rfl, C6_three_resolves emptyIndex nmA rfl⟩

/-- Claim C7: for every resolver state and requested name, two successive
`Resolve` calls for that name return distinct names (the sequential content,
under the resolver's mutex, of the no-duplicate-under-concurrency
guarantee). -/
theorem C7_successive_resolves_distinct (fi : Index) (f : Filename) :
    (Resolve fi f).1 ≠ (Resolve ((Resolve fi f).2) f).1 := by
  cases hf : fi f with
  | none =>
    rw [Resolve_none fi f hf]
    show f ≠ (Resolve (updateIndex fi f 0) f).1
    rw [Resolve_some _ f 0 (updateIndex_self fi f 0)]
    show f ≠ getBareFilename f ++ copySuffix ++ intToDecimal (wrap64 (0 + 1))
      ++ filepathExt f
    exact fun hh => uniqueName_ne_filename f _ (intToDecimal_ne_nil _) hh.symm
  | some k =>
    have hne : f ≠ getBareFilename f ++ copySuffix
        ++ intToDecimal (wrap64 (k + 1)) ++ filepathExt f :=
      fun hh => uniqueName_ne_filename f _ (intToDecimal_ne_nil _) hh.symm
    have hlook : (updateIndex (updateIndex fi f (wrap64 (k + 1)))
        (getBareFilename f ++ copySuffix ++ intToDecimal (wrap64 (k + 1))
          ++ filepathExt f) 0) f = some (wrap64 (k + 1)) := by
      rw [updateIndex_ne _ _ _ hne, updateIndex_self]
    rw [Resolve_some fi f k hf]
    show getBareFilename f ++ copySuffix ++ intToDecimal (wrap64 (k + 1))
      ++ filepathExt f ≠
      (Resolve (updateIndex (updateIndex fi f (wrap64 (k + 1)))
        (getBareFilename f ++ copySuffix ++ intToDecimal (wrap64 (k + 1))
          ++ filepathExt f) 0) f).1
    rw [Resolve_some _ f (wrap64 (k + 1)) hlook]
    show getBareFilename f ++ copySuffix ++ intToDecimal (wrap64 (k + 1))
      ++ filepathExt f ≠
      getBareFilename f ++ copySuffix
      ++ intToDecimal (wrap64 (wrap64 (k + 1) + 1)) ++ filepathExt f
    intro hh
    have hh1 := (List.append_left_inj _).1 hh
    have hh2 := (List.append_right_inj _).1 hh1
    have hh3 := intToDecimal_injective hh2
    exact wrap64_add_one_ne (wrap64 (k + 1)) hh3.symm

/-- For a name whose characters contain no dot and no separator, appending a
leading dot makes the whole name its own extension. -/
theorem extAux_clean : ∀ (l acc : List Char), '.' ∉ l → '/' ∉ l →
    extAux acc (l ++ ['.']) = '.' :: (l.reverse ++ acc) := by
  intro l
  induction l with
  | nil => intro acc _ _; simp [extAux]
  | cons c l ih =>
    intro acc hdot hsep
    rw [List.mem_cons] at hdot hsep
    push_neg at hdot hsep
    have hstep : extAux acc ((c :: l) ++ ['.']) = extAux (c :: acc) (l ++ ['.']) := by
      simp [extAux, Ne.symm hdot.1, Ne.symm hsep.1]
    rw [hstep, ih (c :: acc) hdot.2 hsep.2]
    simp

/-- Claim C10: for a dotfile (single leading dot), `filepath.Ext` is the
entire name, the bare name is empty, and a colliding `Resolve` prepends the
copy suffix and number to the whole name. -/
theorem C10_dotfile_resolution (t : List Char) (m : Index) (k : Int)
    (hdot : '.' ∉ t) (hsep : '/' ∉ t) (hk : m ('.' :: t) = some k) :
    filepathExt ('.' :: t) = '.' :: t ∧
    getBareFilename ('.' :: t) = [] ∧
    (Resolve m ('.' :: t)).1 =
      copySuffix ++ intToDecimal (wrap64 (k + 1)) ++ '.' :: t := by
  have hext : filepathExt ('.' :: t) = '.' :: t := by
    have h1 : ('.' :: t).reverse = t.reverse ++ ['.'] := by simp
    have h2 := extAux_clean t.reverse []
      (by simpa using hdot) (by simpa using hsep)
    rw [filepathExt, h1, h2]
    simp
  have hbare : getBareFilename ('.' :: t) = [] := by
    rw [getBareFilename, hext]
    have := trimSuffix_append [] ('.' :: t)
    simpa using this
  refine ⟨hext, hbare, ?_⟩
  rw [Resolve_some m ('.' :: t) k hk]
  show getBareFilename ('.' :: t) ++ copySuffix
    ++ intToDecimal (wrap64 (k + 1)) ++ filepathExt ('.' :: t) = _
  rw [hbare, hext]
  simp

/-- Claim C10 witness: resolving `.bashrc` recorded with counter 0 yields
`_copy1.bashrc`. -/
theorem C10_dotfile_resolution_witness :
    ('.' ∉ nmBashrcTail) ∧ ('/' ∉ nmBashrcTail) ∧
    (updateIndex emptyIndex ('.' :: nmBashrcTail) 0) ('.' :: nmBashrcTail)
      = some 0 ∧
    (filepathExt ('.' :: nmBashrcTail) = '.' :: nmBashrcTail ∧
     getBareFilename ('.' :: nmBashrcTail) = [] ∧
     (Resolve (updateIndex emptyIndex ('.' :: nmBashrcTail) 0)
       ('.' :: nmBashrcTail)).1 =
       copySuffix ++ intToDecimal (wrap64 (0 + 1)) ++ '.' :: nmBashrcTail) :=
  ⟨by decide, by decide, by decide,
   C10_dotfile_resolution nmBashrcTail
     (updateIndex emptyIndex ('.' :: nmBashrcTail) 0) 0
     (by decide) (by decide) (by decide)⟩

/-! ### Claim C4: seeding characterization -/

/-- Claim C4 as literally stated: the stored counter for `f` is THE maximum
of the copy numbers contributed by the input names (extraction recipe as in
`copyNumOf`, which follows both the claim's wording and the code), and 0
only when no name contributes.  This definition follows the claim's words,
to be compared against `NewFileIndexFromSlice`. -/
def claimedSeedCounter (filenames : List Filename) (f : Filename) : Int :=
  match filenames.filterMap (copyNumOf (getBareFilename f)) with
  | [] => 0
  | c :: cs => cs.foldl max c

/-- Claim C4 (refuting evaluation): on input `{a.txt, a_copy-3.txt}` the name
`a_copy-3.txt` contributes the parsed integer `-3` for `a.txt` (Go's `Atoi`
accepts a sign), so the claim's "maximum copy number found" is `-3`; but the
code's `if latestCopy < copyNum` comparison starts from 0 and never lets a
negative contribution through, storing 0.  The claim as stated is false at
this input. -/
theorem C4_counterexample :
    claimedSeedCounter [nmA, nmACopyNeg3] nmA = -3 ∧
    NewFileIndexFromSlice [nmA, nmACopyNeg3] nmA = some 0 := by
  decide

theorem foldl_maxstep_eq (g : Filename → Option Int) :
    ∀ (l : List Filename) (a : Int),
    l.foldl (fun latestCopy copyName =>
      match g copyName with
      | none => latestCopy
      | some copyNum =>
        if latestCopy < copyNum then copyNum else latestCopy) a =
    (l.filterMap g).foldl max a := by
  intro l
  induction l with
  | nil => intro a; rfl
  | cons c l ih =>
    intro a
    cases hg : g c with
    | none => simp only [List.foldl_cons, hg, List.filterMap_cons]; exact ih a
    | some n =>
      simp only [List.foldl_cons, hg, List.filterMap_cons]
      rw [ih]
      congr 1
      rcases lt_or_ge a n with h | h
      · rw [if_pos h, max_eq_right (le_of_lt h)]
      · rw [if_neg (not_lt.2 h), max_eq_left h]

theorem latestCopyOf_eq (filenames : List Filename) (f : Filename) :
    latestCopyOf filenames f =
      (filenames.filterMap (copyNumOf (getBareFilename f))).foldl max 0 := by
  show filenames.foldl (fun (latestCopy : Int) copyName =>
      match copyNumOf (getBareFilename f) copyName with
      | none => latestCopy
      | some copyNum =>
        if latestCopy < copyNum then copyNum else latestCopy) (0 : Int) = _
  exact foldl_maxstep_eq (copyNumOf (getBareFilename f)) filenames 0

theorem foldl_updateIndex_lookup (V : Filename → Int) :
    ∀ (l : List Filename) (acc : Index) (f : Filename),
    (l.foldl (fun fi filename => updateIndex fi filename (V filename)) acc) f =
    if f ∈ l then some (V f) else acc f := by
  intro l
  induction l with
  | nil => intro acc f; simp
  | cons c l ih =>
    intro acc f
    rw [List.foldl_cons, ih]
    by_cases hfl : f ∈ l
    · simp [hfl, List.mem_cons]
    · by_cases hfc : f = c
      · subst hfc
        simp [hfl, updateIndex]
      · simp [hfl, hfc, updateIndex, List.mem_cons]

/-- Claim C4 (amended): `NewFileIndexFromSlice` stores, for each input
filename `F`, the maximum of 0 and the copy numbers contributed by the input
names (recipe exactly as the claim states it, `copyNumOf`); equivalently a
left fold of `max` over the contributions started at 0, so negative parsed
copy numbers never lower the stored counter below 0, and it is 0 when no
name contributes.  Names not in the input have no entry. -/
theorem C4_seed_counter (filenames : List Filename) (f : Filename) :
    NewFileIndexFromSlice filenames f =
      if f ∈ filenames
      then some ((filenames.filterMap (copyNumOf (getBareFilename f))).foldl max 0)
      else none := by
  unfold NewFileIndexFromSlice
  rw [foldl_updateIndex_lookup (latestCopyOf filenames) filenames emptyIndex f]
  by_cases hf : f ∈ filenames
  · rw [if_pos hf, if_pos hf, latestCopyOf_eq filenames f]
  · rw [if_neg hf, if_neg hf]
    rfl

/-! ### Claims C8 and C9: the receive protocol -/

/-- Claim C8: when the filename token cannot be read (malformed input or
closed connection), `receiveFile` terminates leaving the resolver exactly as
it was, creating no file, sending no response, and never calling
`Resolve`. -/
theorem C8_header_failure_no_effect (con : Conn) (fi : Index)
    (h : con.headerToken = none) :
    (receiveFile con fi).index = fi ∧
    (receiveFile con fi).created = none ∧
    (receiveFile con fi).response = none ∧
    (receiveFile con fi).resolveCalls = 0 := by
  simp [receiveFile, h]

def badConn : Conn := ⟨none, true, true, true, []⟩

/-- Claim C8 witness: a connection whose header read fails. -/
theorem C8_header_failure_no_effect_witness :
    badConn.headerToken = none ∧
    ((receiveFile badConn emptyIndex).index = emptyIndex ∧
     (receiveFile badConn emptyIndex).created = none ∧
     (receiveFile badConn emptyIndex).response = none ∧
     (receiveFile badConn emptyIndex).resolveCalls = 0) :=
  ⟨rfl, C8_header_failure_no_effect badConn emptyIndex rfl⟩

/-- Claim C9: when writing the resolved name back to the client fails after
`Resolve` was called, `receiveFile` does not abort: the resolver keeps the
post-`Resolve` state, and (when file creation succeeds) the output file is
still created under the resolved name with the received stream stored in
it. -/
theorem C9_send_failure_still_stores (con : Conn) (fi : Index) (f : Filename)
    (hh : con.headerToken = some f) (hs : con.sendOk = false) :
    (receiveFile con fi).resolveCalls = 1 ∧
    (receiveFile con fi).index = (Resolve fi f).2 ∧
    (receiveFile con fi).response = none ∧
    (con.createOk = true →
      (receiveFile con fi).created = some ((Resolve fi f).1) ∧
      (receiveFile con fi).fileData = (streamLoop con.writeOk con.reads []).1) := by
  by_cases hc : con.createOk <;> simp [receiveFile, hh, hs, hc]

def sendFailConn : Conn :=
  ⟨some nmB, false, true, true, [ReadResult.chunk ['x'], ReadResult.eofSig]⟩

/-- Claim C9 witness: a connection that requests `b.txt`, fails the
response write, and streams one chunk followed by a clean end of stream. -/
theorem C9_send_failure_still_stores_witness :
    sendFailConn.headerToken = some nmB ∧ sendFailConn.sendOk = false ∧
    ((receiveFile sendFailConn emptyIndex).resolveCalls = 1 ∧
     (receiveFile sendFailConn emptyIndex).index = (Resolve emptyIndex nmB).2 ∧
     (receiveFile sendFailConn emptyIndex).response = none ∧
     (sendFailConn.createOk = true →
       (receiveFile sendFailConn emptyIndex).created =
         some ((Resolve emptyIndex nmB).1) ∧
       (receiveFile sendFailConn emptyIndex).fileData =
         (streamLoop sendFailConn.writeOk sendFailConn.reads []).1)) :=
  ⟨rfl, rfl, C9_send_failure_still_stores sendFailConn emptyIndex nmB rfl rfl⟩

end FilesServer
